import Mathlib

/-!
Verification of the easy-no-password token codec (`src/lib/token_handler.js`).

Bytes are modelled as natural numbers kept below 256 by construction; buffers
are lists of bytes.  The Node standard-library primitives that the handler
calls (`crypto.pbkdf2` with SHA-512, and the Blowfish cipher obtained from
`crypto.createCipheriv("bf", ...)`) are not part of this repository:
PBKDF2-HMAC-SHA512 is embedded concretely below, while the block cipher is
modelled at its interface (an encrypt/decrypt pair on 8-byte blocks), as
described in spec section 4.3.  The repository file `lib/base62.js` is not
present under `src/`, so the base-62 codec is modelled from the spec
(section 4.1).
-/

/-- Big-endian byte rendering of a natural number into exactly `k` bytes
(the low `8 * k` bits, most significant first). -/
def natToBytesBE : ℕ → ℕ → List ℕ
  | 0, _ => []
  | k + 1, v => natToBytesBE k (v / 256) ++ [v % 256]

/-- Big-endian value of a byte list, as in reading a buffer as an unsigned
big integer (spec section 4.1). -/
def bytesToNat (b : List ℕ) : ℕ :=
  b.foldl (fun acc x => acc * 256 + x) 0

/-- The constant `UINT32_CAPACITY = 0xffffffff + 1` from line 8 of
`token_handler.js`. -/
def UINT32_CAPACITY : ℕ := 0xffffffff + 1

/-- Model of `buffer.writeUInt32BE(v, off)`: the four big-endian bytes of
`v mod 2^32` (Node truncates the coerced value to its low 32 bits). -/
def writeUInt32BE (v : ℕ) : List ℕ := natToBytesBE 4 v

/-- Model of `buffer.readUInt32BE(off)`: big-endian 32-bit word at byte
offset `off`; absent positions read as 0. -/
def readUInt32BE (b : List ℕ) (off : ℕ) : ℕ :=
  ((b.getD off 0 * 256 + b.getD (off + 1) 0) * 256 + b.getD (off + 2) 0) * 256
    + b.getD (off + 3) 0

/-- The 8-byte timestamp buffer built in `_encrypt` (lines 96-98):
`writeUInt32BE(timestamp / UINT32_CAPACITY, 0)` then
`writeUInt32BE(timestamp % UINT32_CAPACITY, 4)`. -/
def tsBuffer (t : ℕ) : List ℕ :=
  writeUInt32BE (t / UINT32_CAPACITY) ++ writeUInt32BE (t % UINT32_CAPACITY)

/-- The timestamp reassembly in `_decrypt` (lines 142-144):
`readUInt32BE(0) * UINT32_CAPACITY + readUInt32BE(4)`. -/
def bufferToTimestamp (b : List ℕ) : ℕ :=
  readUInt32BE b 0 * UINT32_CAPACITY + readUInt32BE b 4

/-- Modelled from the spec: the 62-symbol alphabet `0-9A-Za-z` of
`lib/base62.js` (spec sections 4.1 and 6), which is not present under
`src/`. -/
def B62STR : String := "0123456789ABCDEFGHIJKLMNOPQRSTUVWXYZabcdefghijklmnopqrstuvwxyz"

/-- Modelled from the spec: the digit character for a value `d < 62` in the
base-62 alphabet of the missing `lib/base62.js`. -/
def b62digit (d : ℕ) : Char :=
  if d < 10 then Char.ofNat (48 + d)
  else if d < 36 then Char.ofNat (55 + d)
  else Char.ofNat (61 + d)

/-- Modelled from the spec: value of one character of a base-62 string from
the missing `lib/base62.js`; `none` for characters outside the alphabet
(spec: decode fails with `FormatError` exactly on such characters). -/
def b62CharVal (c : Char) : Option ℕ :=
  if 48 ≤ c.toNat ∧ c.toNat ≤ 57 then some (c.toNat - 48)
  else if 65 ≤ c.toNat ∧ c.toNat ≤ 90 then some (c.toNat - 55)
  else if 97 ≤ c.toNat ∧ c.toNat ≤ 122 then some (c.toNat - 61)
  else none

/-- Modelled from the spec: `base62.encode` of the missing `lib/base62.js`
on the value of the buffer — repeated division by 62, digits emitted
least-significant-first and reversed (spec section 4.1), so the all-zero
input encodes to the single digit `0`, never the empty string. -/
def natToB62 (n : ℕ) : List Char :=
  if _h : n < 62 then [b62digit n]
  else natToB62 (n / 62) ++ [b62digit (n % 62)]
termination_by n
decreasing_by
  exact Nat.div_lt_self (by omega) (by omega)

/-- Modelled from the spec: `base62.encode` applied to a buffer, reading the
buffer as a big-endian unsigned integer (spec section 4.1). -/
def b62encode (b : List ℕ) : List Char := natToB62 (bytesToNat b)

/-- Modelled from the spec: accumulator pass of `base62.decode` of the
missing `lib/base62.js`; `none` as soon as a character is outside the
alphabet. -/
def b62StrVal : List Char → ℕ → Option ℕ
  | [], acc => some acc
  | c :: rest, acc =>
    match b62CharVal c with
    | none => none
    | some v => b62StrVal rest (62 * acc + v)

/-- Modelled from the spec: `base62.decode` of the missing `lib/base62.js`,
returning the 8-byte big-endian buffer of the decoded value (the system
only decodes 8-byte payloads and the spec requires decode to invert encode
on them; values are reduced modulo `2^64` to fit the 8-byte buffer). -/
def b62decode (s : List Char) : Option (List ℕ) :=
  (b62StrVal s 0).map (fun v => natToBytesBE 8 (v % 2 ^ 64))

/-- Arithmetic wrap to 64 bits used throughout the SHA-512 model. -/
def w64 (n : ℕ) : ℕ := n % 2 ^ 64

/-- Logical right shift on 64-bit words. -/
def shr64 (x n : ℕ) : ℕ := x / 2 ^ n

/-- Right rotation on 64-bit words. -/
def rotr64 (x n : ℕ) : ℕ := w64 (x / 2 ^ n + x % 2 ^ n * 2 ^ (64 - n))

/-- Choice function `Ch` of SHA-512 (FIPS 180-4). -/
def ch64 (x y z : ℕ) : ℕ :=
  Nat.xor (Nat.land x y) (Nat.land (Nat.xor x (2 ^ 64 - 1)) z)

/-- Majority function `Maj` of SHA-512 (FIPS 180-4). -/
def maj64 (x y z : ℕ) : ℕ :=
  Nat.xor (Nat.xor (Nat.land x y) (Nat.land x z)) (Nat.land y z)

/-- Big sigma-0 of SHA-512. -/
def bsig0 (x : ℕ) : ℕ := Nat.xor (Nat.xor (rotr64 x 28) (rotr64 x 34)) (rotr64 x 39)

/-- Big sigma-1 of SHA-512. -/
def bsig1 (x : ℕ) : ℕ := Nat.xor (Nat.xor (rotr64 x 14) (rotr64 x 18)) (rotr64 x 41)

/-- Small sigma-0 of SHA-512. -/
def ssig0 (x : ℕ) : ℕ := Nat.xor (Nat.xor (rotr64 x 1) (rotr64 x 8)) (shr64 x 7)

/-- Small sigma-1 of SHA-512. -/
def ssig1 (x : ℕ) : ℕ := Nat.xor (Nat.xor (rotr64 x 19) (rotr64 x 61)) (shr64 x 6)

/-- Round constants of SHA-512 (FIPS 180-4): the first 64 bits of the
fractional parts of the cube roots of the first eighty primes, rendered in
decimal. -/
def sha512K : List ℕ := [
  4794697086780616226, 8158064640168781261, 13096744586834688815,
  16840607885511220156, 4131703408338449720, 6480981068601479193,
  10538285296894168987, 12329834152419229976, 15566598209576043074,
  1334009975649890238, 2608012711638119052, 6128411473006802146,
  8268148722764581231, 9286055187155687089, 11230858885718282805,
  13951009754708518548, 16472876342353939154, 17275323862435702243,
  1135362057144423861, 2597628984639134821, 3308224258029322869,
  5365058923640841347, 6679025012923562964, 8573033837759648693,
  10970295158949994411, 12119686244451234320, 12683024718118986047,
  13788192230050041572, 14330467153632333762, 15395433587784984357,
  489312712824947311, 1452737877330783856, 2861767655752347644,
  3322285676063803686, 5560940570517711597, 5996557281743188959,
  7280758554555802590, 8532644243296465576, 9350256976987008742,
  10552545826968843579, 11727347734174303076, 12113106623233404929,
  14000437183269869457, 14369950271660146224, 15101387698204529176,
  15463397548674623760, 17586052441742319658, 1182934255886127544,
  1847814050463011016, 2177327727835720531, 2830643537854262169,
  3796741975233480872, 4115178125766777443, 5681478168544905931,
  6601373596472566643, 7507060721942968483, 8399075790359081724,
  8693463985226723168, 9568029438360202098, 10144078919501101548,
  10430055236837252648, 11840083180663258601, 13761210420658862357,
  14299343276471374635, 14566680578165727644, 15097957966210449927,
  16922976911328602910, 17689382322260857208, 500013540394364858,
  748580250866718886, 1242879168328830382, 1977374033974150939,
  2944078676154940804, 3659926193048069267, 4368137639120453308,
  4836135668995329356, 5532061633213252278, 6448918945643986474,
  6902733635092675308, 7801388544844847127]

/-- Hash state of SHA-512: the eight 64-bit working variables. -/
structure Sha512State where
  a : ℕ
  b : ℕ
  c : ℕ
  d : ℕ
  e : ℕ
  f : ℕ
  g : ℕ
  h : ℕ

/-- Initial hash value of SHA-512 (FIPS 180-4): the first 64 bits of the
fractional parts of the square roots of the first eight primes, in
decimal. -/
def sha512H0 : Sha512State :=
  ⟨7640891576956012808,
   13503953896175478587,
   4354685564936845355,
   11912009170470909681,
   5840696475078001361,
   11170449401992604703,
   2270897969802886507,
   6620516959819538809⟩

/-- Big-endian 64-bit word number `i` of a 128-byte block. -/
def readWord64 (b : List ℕ) (i : ℕ) : ℕ :=
  (List.range 8).foldl (fun acc j => acc * 256 + b.getD (8 * i + j) 0) 0

/-- One step of the SHA-512 message-schedule extension; the schedule is kept
in reverse order (most recent word first). -/
def sha512ExtendStep (W : List ℕ) : List ℕ :=
  w64 (ssig1 (W.getD 1 0) + W.getD 6 0 + ssig0 (W.getD 14 0) + W.getD 15 0) :: W

/-- The full 80-word message schedule of one block. -/
def sha512Schedule (block : List ℕ) : List ℕ :=
  (((List.range 64).foldl (fun W _ => sha512ExtendStep W)
      (((List.range 16).map (fun i => readWord64 block i)).reverse))).reverse

/-- One round of the SHA-512 compression function. -/
def sha512Round (s : Sha512State) (kw : ℕ × ℕ) : Sha512State :=
  let T1 := w64 (s.h + bsig1 s.e + ch64 s.e s.f s.g + kw.1 + kw.2)
  let T2 := w64 (bsig0 s.a + maj64 s.a s.b s.c)
  ⟨w64 (T1 + T2), s.a, s.b, s.c, w64 (s.d + T1), s.e, s.f, s.g⟩

/-- Compression of one 128-byte block into the running hash state. -/
def sha512Compress (s : Sha512State) (block : List ℕ) : Sha512State :=
  let t := (sha512K.zip (sha512Schedule block)).foldl sha512Round s
  ⟨w64 (s.a + t.a), w64 (s.b + t.b), w64 (s.c + t.c), w64 (s.d + t.d),
   w64 (s.e + t.e), w64 (s.f + t.f), w64 (s.g + t.g), w64 (s.h + t.h)⟩

/-- Merkle-Damgard padding of SHA-512: a `0x80` byte, zeros to 112 modulo
128, then the bit length as a 16-byte big-endian integer. -/
def sha512Pad (m : List ℕ) : List ℕ :=
  m ++ [128] ++ List.replicate ((128 - (m.length + 17) % 128) % 128) 0
    ++ natToBytesBE 16 (8 * m.length)

/-- Split a byte list into chunks of 128 bytes. -/
def chunks128 (l : List ℕ) : List (List ℕ) :=
  if h : l = [] then [] else l.take 128 :: chunks128 (l.drop 128)
termination_by l.length
decreasing_by
  simp only [List.length_drop]
  have : 0 < l.length := List.length_pos.mpr h
  omega

/-- SHA-512 of a byte list, as a list of 64 bytes. -/
def sha512 (m : List ℕ) : List ℕ :=
  let s := (chunks128 (sha512Pad m)).foldl sha512Compress sha512H0
  natToBytesBE 8 s.a ++ natToBytesBE 8 s.b ++ natToBytesBE 8 s.c ++ natToBytesBE 8 s.d
    ++ natToBytesBE 8 s.e ++ natToBytesBE 8 s.f ++ natToBytesBE 8 s.g ++ natToBytesBE 8 s.h

/-- HMAC-SHA512 (RFC 2104) with 128-byte block size: the pseudorandom
function that Node `crypto.pbkdf2(..., "sha512")` iterates. -/
def hmacSha512 (key msg : List ℕ) : List ℕ :=
  let k0 := if 128 < key.length then sha512 key else key
  let kp := k0 ++ List.replicate (128 - k0.length) 0
  sha512 (kp.map (fun x => Nat.xor x 0x5c) ++ sha512 (kp.map (fun x => Nat.xor x 0x36) ++ msg))

/-- Block `T_i` of PBKDF2 (RFC 8018): `U_1 = PRF(password, salt || INT(i))`,
`U_j = PRF(password, U_(j-1))`, `T_i` the xor of `U_1 .. U_c`. -/
def pbkdf2Block (password salt : List ℕ) (c i : ℕ) : List ℕ :=
  let U1 := hmacSha512 password (salt ++ natToBytesBE 4 i)
  ((List.range (c - 1)).foldl
    (fun TU _ =>
      let U := hmacSha512 password TU.2
      (List.zipWith Nat.xor TU.1 U, U))
    (U1, U1)).1

/-- PBKDF2 with HMAC-SHA512, iteration count `c`, output length `dkLen`
bytes: the model of Node `crypto.pbkdf2(password, salt, c, dkLen, "sha512")`
called by `_createKey` (lines 156-172). -/
def pbkdf2HmacSha512 (password salt : List ℕ) (c dkLen : ℕ) : List ℕ :=
  (((List.range ((dkLen + 63) / 64)).map
      (fun i => pbkdf2Block password salt c (i + 1))).join).take dkLen

/-- UTF-8 bytes of one Unicode scalar value, as `Buffer.from(s, "utf-8")`
produces for each character. -/
def utf8EncodeChar (c : Char) : List ℕ :=
  let n := c.toNat
  if n < 0x80 then [n]
  else if n < 0x800 then [0xc0 + n / 64, 0x80 + n % 64]
  else if n < 0x10000 then [0xe0 + n / 4096, 0x80 + n / 64 % 64, 0x80 + n % 64]
  else [0xf0 + n / 262144, 0x80 + n / 4096 % 64, 0x80 + n / 64 % 64, 0x80 + n % 64]

/-- UTF-8 bytes of a string, the model of `Buffer.from(username, "utf-8")`
in `_createKey` (line 157). -/
def utf8Bytes (s : String) : List ℕ :=
  (s.toList.map utf8EncodeChar).join

/-- Model of `_createKey` (lines 156-172): 16 bytes of PBKDF2 with 1000
iterations and SHA-512, the username bytes as the password and the secret
as the salt. -/
def createKey (secret : List ℕ) (username : String) : List ℕ :=
  pbkdf2HmacSha512 (utf8Bytes username) secret 1000 16

/-- Modelled from the spec: interface of the external Blowfish block cipher
obtained from Node `crypto.createCipheriv("bf", key, iv)` /
`crypto.createDecipheriv` (spec section 4.3) — an encrypt/decrypt pair,
each mapping a key and an 8-byte block to an 8-byte block. -/
structure BlockCipher where
  enc : List ℕ → List ℕ → List ℕ
  dec : List ℕ → List ℕ → List ℕ

/-- A well-behaved block cipher as the spec describes the Blowfish
primitive (section 4.3): on an 8-byte block it produces an 8-byte block and
decryption is the exact inverse of encryption under the same key. -/
def goodCipher (C : BlockCipher) : Prop :=
  ∀ key b, b.length = 8 → (∀ x ∈ b, x < 256) →
    (C.enc key b).length = 8 ∧ (∀ x ∈ C.enc key b, x < 256) ∧
      C.dec key (C.enc key b) = b

/-- The identity pairing, a trivially well-behaved `BlockCipher` used to
instantiate cipher-generic statements on concrete inputs. -/
def idCipher : BlockCipher :=
  ⟨fun _ b => b, fun _ b => b⟩

/-- Errors thrown by the handler for caller-contract violations
(`createToken` and `isValid` lines 38-43 and 57-65, constructor
lines 18-20). -/
inductive HandlerError where
  | noSecret : HandlerError
  | noUsername : HandlerError
deriving DecidableEq

/-- Configuration state of an `EasyNoPassword` instance: the secret bytes
and the validity window in milliseconds. -/
structure EasyNoPassword where
  secret : List ℕ
  maxTokenAge : Int

/-- Model of line 23, `this.maxTokenAge = maxTokenAge || 900000`: a missing
or zero (falsy) argument defaults to 900000, any other value is kept. -/
def resolveMaxTokenAge (m : Option Int) : Int :=
  match m with
  | none => 900000
  | some v => if v = 0 then 900000 else v

/-- Model of the constructor (lines 17-29): reject an empty (falsy) secret,
default the validity window. -/
def mkEasyNoPassword (secret : List ℕ) (maxTokenAge : Option Int) :
    Except HandlerError EasyNoPassword :=
  if secret = [] then Except.error HandlerError.noSecret
  else Except.ok ⟨secret, resolveMaxTokenAge maxTokenAge⟩

/-- Model of `_encrypt` plus `createToken` (lines 37-47 and 88-114), with
the clock reading `new Date().getTime()` passed in as `nowMs` and the
external cipher as a parameter: derive the key, build the 8-byte timestamp
buffer, encrypt it, base-62 encode the ciphertext. -/
def createToken (C : BlockCipher) (cfg : EasyNoPassword) (username : String)
    (nowMs : ℕ) : Except HandlerError (List Char) :=
  if username = "" then Except.error HandlerError.noUsername
  else Except.ok (b62encode (C.enc (createKey cfg.secret username) (tsBuffer nowMs)))

/-- Model of `_decrypt` (lines 119-151): on a base-62 decode failure return
timestamp 0 without touching the cipher; otherwise decrypt and reassemble
the two 32-bit words. -/
def decryptToken (C : BlockCipher) (cfg : EasyNoPassword) (token : List Char)
    (username : String) : ℕ :=
  match b62decode token with
  | none => 0
  | some encrypted => bufferToTimestamp (C.dec (createKey cfg.secret username) encrypted)

/-- The window check of `isValid` (lines 75-77):
`currentTimestamp - timestamp < maxTokenAge && currentTimestamp - timestamp > 0`,
computed in signed arithmetic as JavaScript does. -/
def windowCheck (maxAge : Int) (nowMs ts : ℕ) : Bool :=
  decide ((nowMs : Int) - (ts : Int) < maxAge) && decide ((nowMs : Int) - (ts : Int) > 0)

/-- Model of `isValid` (lines 56-83), with the clock reading passed in as
`nowMs`: reject an empty username, then report whether the recovered
timestamp is strictly inside the validity window. -/
def isValid (C : BlockCipher) (cfg : EasyNoPassword) (token : List Char)
    (username : String) (nowMs : ℕ) : Except HandlerError Bool :=
  if username = "" then Except.error HandlerError.noUsername
  else Except.ok (windowCheck cfg.maxTokenAge nowMs (decryptToken C cfg token username))

/-- Sample username from the README quick start. -/
def uFrani : String := "frani"

/-- Sample username from the spec's testable properties. -/
def uAlice : String := "alice"

/-- Sample secret bytes for concrete instantiations. -/
def demoSecret : List ℕ := [7, 11]

/-- Sample configuration: `demoSecret` with the default 900000 ms window. -/
def cfgDemo : EasyNoPassword := ⟨demoSecret, 900000⟩

/-- A token containing a character outside the base-62 alphabet. -/
def badToken : List Char := ['!', '!']

theorem natToBytesBE_length (k v : ℕ) : (natToBytesBE k v).length = k := by
  induction k generalizing v with
  | zero => rfl
  | succ m ih =>
    simp only [natToBytesBE, List.length_append, List.length_singleton, ih]

theorem natToBytesBE_lt (k v : ℕ) : ∀ x ∈ natToBytesBE k v, x < 256 := by
  induction k generalizing v with
  | zero => simp [natToBytesBE]
  | succ k ih =>
    intro x hx
    simp only [natToBytesBE, List.mem_append, List.mem_singleton] at hx
    rcases hx with hx | hx
    · exact ih _ x hx
    · omega

theorem bytesToNat_concat (b : List ℕ) (y : ℕ) :
    bytesToNat (b ++ [y]) = bytesToNat b * 256 + y := by
  simp [bytesToNat, List.foldl_append]

theorem bytesToNat_natToBytesBE (k v : ℕ) :
    bytesToNat (natToBytesBE k v) = v % 256 ^ k := by
  induction k generalizing v with
  | zero => simp [natToBytesBE, bytesToNat, Nat.mod_one]
  | succ k ih =>
    rw [natToBytesBE, bytesToNat_concat, ih, pow_succ]
    have h1 : v % (256 ^ k * 256) % 256 = v % 256 :=
      Nat.mod_mod_of_dvd v ⟨256 ^ k, by ring⟩
    have h2 : v % (256 ^ k * 256) / 256 = v / 256 % 256 ^ k := by
      rw [mul_comm]
      exact Nat.mod_mul_right_div_self v 256 (256 ^ k)
    have h3 := Nat.div_add_mod (v % (256 ^ k * 256)) 256
    omega

theorem bytesToNat_lt (b : List ℕ) (hb : ∀ x ∈ b, x < 256) :
    bytesToNat b < 256 ^ b.length := by
  induction b using List.reverseRecOn with
  | nil => simp [bytesToNat]
  | append_singleton b y ih =>
    rw [bytesToNat_concat]
    have h1 : bytesToNat b < 256 ^ b.length := ih (fun x hx => hb x (by simp [hx]))
    have h2 : y < 256 := hb y (by simp)
    simp only [List.length_append, List.length_singleton]
    calc bytesToNat b * 256 + y < (bytesToNat b + 1) * 256 := by omega
    _ ≤ 256 ^ b.length * 256 := by
        have : bytesToNat b + 1 ≤ 256 ^ b.length := h1
        exact Nat.mul_le_mul_right 256 this
    _ = 256 ^ (b.length + 1) := by rw [pow_succ]

theorem natToBytesBE_bytesToNat (b : List ℕ) (hb : ∀ x ∈ b, x < 256) :
    natToBytesBE b.length (bytesToNat b) = b := by
  induction b using List.reverseRecOn with
  | nil => rfl
  | append_singleton b y ih =>
    have h2 : y < 256 := hb y (by simp)
    simp only [List.length_append, List.length_singleton]
    rw [bytesToNat_concat, natToBytesBE]
    have hdiv : (bytesToNat b * 256 + y) / 256 = bytesToNat b := by omega
    have hmod : (bytesToNat b * 256 + y) % 256 = y := by omega
    rw [hdiv, hmod, ih (fun x hx => hb x (by simp [hx]))]

theorem natToBytesBE_four (v : ℕ) :
    natToBytesBE 4 v = [v / 2 ^ 24 % 256, v / 2 ^ 16 % 256, v / 2 ^ 8 % 256, v % 256] := by
  show natToBytesBE 3 (v / 256) ++ [v % 256] = _
  show (natToBytesBE 2 (v / 256 / 256) ++ [v / 256 % 256]) ++ [v % 256] = _
  show ((natToBytesBE 1 (v / 256 / 256 / 256) ++ [v / 256 / 256 % 256]) ++ [v / 256 % 256])
      ++ [v % 256] = _
  show (((natToBytesBE 0 (v / 256 / 256 / 256 / 256) ++ [v / 256 / 256 / 256 % 256])
      ++ [v / 256 / 256 % 256]) ++ [v / 256 % 256]) ++ [v % 256] = _
  simp only [natToBytesBE, Nat.div_div_eq_div_mul, List.nil_append, List.append_assoc,
    List.cons_append, List.singleton_append]
  norm_num

theorem readUInt32BE_cons_zero (x0 x1 x2 x3 : ℕ) (rest : List ℕ) :
    readUInt32BE (x0 :: x1 :: x2 :: x3 :: rest) 0 =
      ((x0 * 256 + x1) * 256 + x2) * 256 + x3 := rfl

theorem readUInt32BE_cons_four (x0 x1 x2 x3 : ℕ) (rest : List ℕ) :
    readUInt32BE (x0 :: x1 :: x2 :: x3 :: rest) 4 = readUInt32BE rest 0 := rfl

theorem read_word_be (u : ℕ) (hu : u < 2 ^ 32) (rest : List ℕ) :
    readUInt32BE (natToBytesBE 4 u ++ rest) 0 = u := by
  rw [natToBytesBE_four]
  simp only [List.cons_append, List.nil_append, readUInt32BE_cons_zero]
  omega

theorem tsBuffer_length (t : ℕ) : (tsBuffer t).length = 8 := by
  simp [tsBuffer, writeUInt32BE, natToBytesBE_length]

theorem tsBuffer_bytes_lt (t : ℕ) : ∀ x ∈ tsBuffer t, x < 256 := by
  intro x hx
  simp only [tsBuffer, writeUInt32BE, List.mem_append] at hx
  rcases hx with hx | hx <;> exact natToBytesBE_lt _ _ x hx

/-- C4: `createToken` encodes the timestamp as an 8-byte big-endian buffer
whose first 32-bit big-endian word is `floor(now / 2^32)` and whose second
word is `now mod 2^32`, and the decrypt path reassembles the two words into
the original timestamp (high word times `2^32` plus low word). -/
theorem tsBuffer_words_and_reassembly (t : ℕ) (h : t < 2 ^ 64) :
    (tsBuffer t).length = 8 ∧
    readUInt32BE (tsBuffer t) 0 = t / 2 ^ 32 ∧
    readUInt32BE (tsBuffer t) 4 = t % 2 ^ 32 ∧
    bufferToTimestamp (tsBuffer t) = t := by
  have hhi : t / UINT32_CAPACITY < 2 ^ 32 := by
    have : (2 : ℕ) ^ 64 = 2 ^ 32 * 2 ^ 32 := by norm_num
    rw [UINT32_CAPACITY]
    omega
  have hlo : t % UINT32_CAPACITY < 2 ^ 32 := by
    rw [UINT32_CAPACITY]
    omega
  have h0 : readUInt32BE (tsBuffer t) 0 = t / UINT32_CAPACITY := by
    rw [tsBuffer, writeUInt32BE]
    exact read_word_be _ hhi _
  have h4 : readUInt32BE (tsBuffer t) 4 = t % UINT32_CAPACITY := by
    rw [tsBuffer, writeUInt32BE, natToBytesBE_four]
    simp only [List.cons_append, List.nil_append, readUInt32BE_cons_four]
    exact read_word_be _ hlo _
  refine ⟨tsBuffer_length t, ?_, ?_, ?_⟩
  · rw [h0, UINT32_CAPACITY]
    norm_num
  · rw [h4, UINT32_CAPACITY]
    norm_num
  · rw [bufferToTimestamp, h0, h4, UINT32_CAPACITY]
    omega

/-- Witness for C4 at a concrete recent-epoch timestamp. -/
theorem tsBuffer_words_and_reassembly_w :
    (1712345678901 : ℕ) < 2 ^ 64 ∧
    ((tsBuffer 1712345678901).length = 8 ∧
     readUInt32BE (tsBuffer 1712345678901) 0 = 1712345678901 / 2 ^ 32 ∧
     readUInt32BE (tsBuffer 1712345678901) 4 = 1712345678901 % 2 ^ 32 ∧
     bufferToTimestamp (tsBuffer 1712345678901) = 1712345678901) :=
  ⟨by norm_num, tsBuffer_words_and_reassembly 1712345678901 (by norm_num)⟩

theorem b62digit_val : ∀ d, d < 62 → b62CharVal (b62digit d) = some d := by decide

theorem b62StrVal_singleton (c : Char) (v acc : ℕ) (h : b62CharVal c = some v) :
    b62StrVal [c] acc = some (62 * acc + v) := by
  simp [b62StrVal, h]

theorem b62StrVal_append (xs ys : List Char) (acc a : ℕ)
    (h : b62StrVal xs acc = some a) :
    b62StrVal (xs ++ ys) acc = b62StrVal ys a := by
  induction xs generalizing acc with
  | nil =>
    simp only [b62StrVal, Option.some.injEq] at h
    subst h
    simp
  | cons c rest ih =>
    simp only [List.cons_append, b62StrVal] at h ⊢
    cases hc : b62CharVal c with
    | none =>
      rw [hc] at h
      simp at h
    | some v =>
      rw [hc] at h
      exact ih _ h

theorem natToB62_ne_nil (n : ℕ) : natToB62 n ≠ [] := by
  rw [natToB62]
  split <;> simp

theorem b62StrVal_natToB62 (n : ℕ) :
    ∃ k, 0 < k ∧ ∀ acc, b62StrVal (natToB62 n) acc = some (acc * k + n) := by
  induction n using Nat.strong_induction_on with
  | _ n ih =>
    by_cases h : n < 62
    · refine ⟨62, by omega, fun acc => ?_⟩
      rw [natToB62, dif_pos h, b62StrVal_singleton _ n acc (b62digit_val n h)]
      congr 1
      ring
    · obtain ⟨k, hk, hval⟩ := ih (n / 62) (Nat.div_lt_self (by omega) (by omega))
      refine ⟨k * 62, by positivity, fun acc => ?_⟩
      rw [natToB62, dif_neg h,
        b62StrVal_append _ _ _ _ (hval acc),
        b62StrVal_singleton _ (n % 62) _ (b62digit_val _ (Nat.mod_lt n (by omega)))]
      congr 1
      have := Nat.div_add_mod n 62
      have hmul : 62 * (acc * k + n / 62) = acc * (k * 62) + 62 * (n / 62) := by ring
      omega

theorem b62StrVal_natToB62_zero (n : ℕ) : b62StrVal (natToB62 n) 0 = some n := by
  obtain ⟨k, _, hv⟩ := b62StrVal_natToB62 n
  simpa using hv 0

/-- C8: base-62 decode is the exact inverse of encode for every 8-byte
sequence — `decode(encode(b)) = b` — including inputs with leading zero
bytes, and every 8-byte input (in particular the all-zero one) encodes to a
non-empty deterministic string. -/
theorem b62_decode_encode (b : List ℕ) (hl : b.length = 8) (hb : ∀ x ∈ b, x < 256) :
    b62decode (b62encode b) = some b ∧ b62encode b ≠ [] := by
  have hlt : bytesToNat b < 2 ^ 64 := by
    have h := bytesToNat_lt b hb
    rw [hl] at h
    calc bytesToNat b < 256 ^ 8 := h
    _ = 2 ^ 64 := by norm_num
  refine ⟨?_, by rw [b62encode]; exact natToB62_ne_nil _⟩
  rw [b62encode, b62decode, b62StrVal_natToB62_zero]
  have hid := natToBytesBE_bytesToNat b hb
  rw [hl] at hid
  simp only [Option.map_some', Nat.mod_eq_of_lt hlt, hid]

/-- Witness for C8 at the all-zero 8-byte buffer. -/
theorem b62_decode_encode_w :
    (List.replicate 8 0).length = 8 ∧ (∀ x ∈ List.replicate 8 0, x < 256) ∧
      (b62decode (b62encode (List.replicate 8 0)) = some (List.replicate 8 0) ∧
        b62encode (List.replicate 8 0) ≠ []) :=
  ⟨by decide, by decide, b62_decode_encode (List.replicate 8 0) (by decide) (by decide)⟩

theorem b62digit_mem : ∀ d, d < 62 → b62digit d ∈ B62STR.toList := by decide

theorem natToB62_mem (n : ℕ) : ∀ c ∈ natToB62 n, c ∈ B62STR.toList := by
  induction n using Nat.strong_induction_on with
  | _ n ih =>
    intro c hc
    by_cases h : n < 62
    · rw [natToB62, dif_pos h] at hc
      simp only [List.mem_singleton] at hc
      subst hc
      exact b62digit_mem n h
    · rw [natToB62, dif_neg h] at hc
      rcases List.mem_append.mp hc with h1 | h1
      · exact ih (n / 62) (Nat.div_lt_self (by omega) (by omega)) c h1
      · simp only [List.mem_singleton] at h1
        subst h1
        exact b62digit_mem _ (Nat.mod_lt n (by omega))

theorem natToB62_length_le (n : ℕ) :
    ∀ k, 1 ≤ k → n < 62 ^ k → (natToB62 n).length ≤ k := by
  induction n using Nat.strong_induction_on with
  | _ n ih =>
    intro k hk h
    by_cases hn : n < 62
    · rw [natToB62, dif_pos hn]
      simpa using hk
    · rw [natToB62, dif_neg hn]
      have hk2 : 2 ≤ k := by
        by_contra hcon
        have hk1 : k = 1 := by omega
        rw [hk1, pow_one] at h
        omega
      have hpow : 62 ^ (k - 1) * 62 = 62 ^ k := by
        rw [← pow_succ]
        congr 1
        omega
      have hdiv : n / 62 < 62 ^ (k - 1) := by
        rw [Nat.div_lt_iff_lt_mul (by omega : 0 < 62)]
        omega
      have hrec := ih (n / 62) (Nat.div_lt_self (by omega) (by omega)) (k - 1)
        (by omega) hdiv
      simp only [List.length_append, List.length_singleton]
      omega

theorem natToB62_length_ge (n : ℕ) :
    ∀ k, 62 ^ k ≤ n → k + 1 ≤ (natToB62 n).length := by
  induction n using Nat.strong_induction_on with
  | _ n ih =>
    intro k h
    by_cases hn : n < 62
    · rw [natToB62, dif_pos hn]
      have hk : k = 0 := by
        by_contra hcon
        have h1 : 1 ≤ k := by omega
        have h62 : (62 : ℕ) ≤ 62 ^ k := by
          calc (62 : ℕ) = 62 ^ 1 := (pow_one 62).symm
          _ ≤ 62 ^ k := Nat.pow_le_pow_right (by omega) h1
        omega
      subst hk
      simp
    · rw [natToB62, dif_neg hn]
      simp only [List.length_append, List.length_singleton]
      cases k with
      | zero => omega
      | succ j =>
        have hdiv : 62 ^ j ≤ n / 62 := by
          rw [Nat.le_div_iff_mul_le (by omega : 0 < 62)]
          have hpow : 62 ^ j * 62 = 62 ^ (j + 1) := by rw [← pow_succ]
          omega
        have hrec := ih (n / 62) (Nat.div_lt_self (by omega) (by omega)) j hdiv
        omega

/-- C7 (counterexample): it is not the case that every token produced by
`createToken` has length 10 to 11 — with the identity-pairing instance of
the cipher interface and timestamp 1 the ciphertext value is 1 and the
token is the single character `1`. -/
theorem token_length_cx :
    ¬ ∀ (C : BlockCipher) (cfg : EasyNoPassword) (u : String) (now : ℕ)
        (tok : List Char),
        createToken C cfg u now = Except.ok tok →
          10 ≤ tok.length ∧ tok.length ≤ 11 := by
  intro hall
  have hne : uFrani ≠ "" := by decide
  have h1 : natToB62 1 = ['1'] := by
    rw [natToB62, dif_pos (by norm_num : (1 : ℕ) < 62)]
    decide
  have hok : createToken idCipher cfgDemo uFrani 1 = Except.ok ['1'] := by
    rw [createToken, if_neg hne]
    have hval : bytesToNat (idCipher.enc (createKey cfgDemo.secret uFrani)
        (tsBuffer 1)) = 1 := by decide
    rw [b62encode, hval, h1]
  have h := hall idCipher cfgDemo uFrani 1 ['1'] hok
  have hlen : (['1'] : List Char).length = 1 := rfl
  omega

/-- C7 (amended): every token produced by `createToken` is a string over
the 62-symbol alphabet `0-9A-Za-z` of length between 1 and 11 characters;
the length is 10 to 11 exactly when the 8-byte ciphertext, read as a
big-endian integer, is at least `62^9`. -/
theorem token_alphabet_and_length (C : BlockCipher) (cfg : EasyNoPassword)
    (u : String) (now : ℕ) (hC : goodCipher C) (hu : u ≠ "") :
    ∃ tok, createToken C cfg u now = Except.ok tok ∧
      (∀ c ∈ tok, c ∈ B62STR.toList) ∧ 1 ≤ tok.length ∧ tok.length ≤ 11 ∧
      (10 ≤ tok.length ↔
        62 ^ 9 ≤ bytesToNat (C.enc (createKey cfg.secret u) (tsBuffer now))) := by
  obtain ⟨hlen, hbytes, _⟩ := hC (createKey cfg.secret u) (tsBuffer now)
    (tsBuffer_length now) (tsBuffer_bytes_lt now)
  have hv : bytesToNat (C.enc (createKey cfg.secret u) (tsBuffer now)) < 62 ^ 11 := by
    have hb := bytesToNat_lt _ hbytes
    rw [hlen] at hb
    have hcmp : (256 : ℕ) ^ 8 < 62 ^ 11 := by norm_num
    omega
  refine ⟨b62encode (C.enc (createKey cfg.secret u) (tsBuffer now)),
    by rw [createToken, if_neg hu], ?_, ?_, ?_, ?_⟩
  · exact fun c hc => natToB62_mem _ c hc
  · have hne := natToB62_ne_nil
      (bytesToNat (C.enc (createKey cfg.secret u) (tsBuffer now)))
    rw [b62encode]
    exact List.length_pos.mpr hne
  · exact natToB62_length_le _ 11 (by omega) hv
  · rw [b62encode]
    constructor
    · intro h10
      by_contra hcon
      have hlt : bytesToNat (C.enc (createKey cfg.secret u) (tsBuffer now))
          < 62 ^ 9 := by omega
      have hle := natToB62_length_le
        (bytesToNat (C.enc (createKey cfg.secret u) (tsBuffer now))) 9 (by omega) hlt
      omega
    · intro h9
      have hge := natToB62_length_ge
        (bytesToNat (C.enc (createKey cfg.secret u) (tsBuffer now))) 9 h9
      omega

/-- Witness for the amended C7 at a concrete cipher instance, username and
timestamp. -/
theorem token_alphabet_and_length_w :
    goodCipher idCipher ∧ uFrani ≠ "" ∧
      (∃ tok, createToken idCipher cfgDemo uFrani (2 ^ 60) = Except.ok tok ∧
        (∀ c ∈ tok, c ∈ B62STR.toList) ∧ 1 ≤ tok.length ∧ tok.length ≤ 11 ∧
        (10 ≤ tok.length ↔
          62 ^ 9 ≤ bytesToNat (idCipher.enc (createKey cfgDemo.secret uFrani)
            (tsBuffer (2 ^ 60))))) :=
  ⟨fun _ _ h1 h2 => ⟨h1, h2, rfl⟩, by decide,
    token_alphabet_and_length idCipher cfgDemo uFrani (2 ^ 60)
      (fun _ _ h1 h2 => ⟨h1, h2, rfl⟩) (by decide)⟩

theorem windowCheck_eq_true (maxAge : Int) (now ts : ℕ) :
    windowCheck maxAge now ts = true ↔
      0 < (now : Int) - (ts : Int) ∧ (now : Int) - (ts : Int) < maxAge := by
  constructor
  · intro h
    simp only [windowCheck, Bool.and_eq_true, decide_eq_true_eq] at h
    exact ⟨h.2, h.1⟩
  · intro h
    simp only [windowCheck, Bool.and_eq_true, decide_eq_true_eq]
    exact ⟨h.2, h.1⟩

theorem windowCheck_eq_false (maxAge : Int) (now ts : ℕ) :
    windowCheck maxAge now ts = false ↔
      ¬(0 < (now : Int) - (ts : Int) ∧ (now : Int) - (ts : Int) < maxAge) := by
  rw [← windowCheck_eq_true maxAge now ts]
  cases windowCheck maxAge now ts <;> simp

/-- C2: `isValid` declares a token valid exactly when the recovered
timestamp satisfies `0 < now - timestamp < maxTokenAge`; both bounds are
strict, so a token whose embedded timestamp equals or exceeds the
verification time is invalid, and a token exactly `maxTokenAge` old is
invalid. -/
theorem isValid_window_strict (C : BlockCipher) (cfg : EasyNoPassword)
    (tok : List Char) (u : String) (now : ℕ) (hu : u ≠ "") :
    (isValid C cfg tok u now = Except.ok true ↔
      0 < (now : Int) - (decryptToken C cfg tok u : Int) ∧
        (now : Int) - (decryptToken C cfg tok u : Int) < cfg.maxTokenAge) ∧
    (now ≤ decryptToken C cfg tok u →
      isValid C cfg tok u now = Except.ok false) ∧
    ((now : Int) - (decryptToken C cfg tok u : Int) = cfg.maxTokenAge →
      isValid C cfg tok u now = Except.ok false) := by
  simp only [isValid, if_neg hu]
  refine ⟨?_, ?_, ?_⟩
  · rw [← windowCheck_eq_true cfg.maxTokenAge now (decryptToken C cfg tok u)]
    constructor
    · intro h
      exact Except.ok.inj h
    · intro h
      rw [h]
  · intro h
    have hf : windowCheck cfg.maxTokenAge now (decryptToken C cfg tok u) = false := by
      rw [windowCheck_eq_false]
      intro hcon
      omega
    rw [hf]
  · intro h
    have hf : windowCheck cfg.maxTokenAge now (decryptToken C cfg tok u) = false := by
      rw [windowCheck_eq_false]
      intro hcon
      omega
    rw [hf]

/-- Witness for C2 at concrete inputs. -/
theorem isValid_window_strict_w :
    uAlice ≠ "" ∧
    ((isValid idCipher cfgDemo badToken uAlice 42 = Except.ok true ↔
      0 < (42 : Int) - (decryptToken idCipher cfgDemo badToken uAlice : Int) ∧
        (42 : Int) - (decryptToken idCipher cfgDemo badToken uAlice : Int) <
          cfgDemo.maxTokenAge) ∧
    (42 ≤ decryptToken idCipher cfgDemo badToken uAlice →
      isValid idCipher cfgDemo badToken uAlice 42 = Except.ok false) ∧
    ((42 : Int) - (decryptToken idCipher cfgDemo badToken uAlice : Int) =
        cfgDemo.maxTokenAge →
      isValid idCipher cfgDemo badToken uAlice 42 = Except.ok false)) :=
  ⟨by decide, isValid_window_strict idCipher cfgDemo badToken uAlice 42 (by decide)⟩

/-- C3: for every token (well-formed or not) and every non-empty username,
`isValid` returns a boolean and never throws — no input reaches the error
constructor. -/
theorem isValid_never_throws (C : BlockCipher) (cfg : EasyNoPassword)
    (tok : List Char) (u : String) (now : ℕ) (hu : u ≠ "") :
    ∃ b : Bool, isValid C cfg tok u now = Except.ok b :=
  ⟨windowCheck cfg.maxTokenAge now (decryptToken C cfg tok u),
    by rw [isValid, if_neg hu]⟩

/-- Witness for C3 on a malformed token. -/
theorem isValid_never_throws_w :
    uAlice ≠ "" ∧
      ∃ b : Bool, isValid idCipher cfgDemo badToken uAlice 123 = Except.ok b :=
  ⟨by decide, isValid_never_throws idCipher cfgDemo badToken uAlice 123 (by decide)⟩

/-- C9: when base-62 decoding of the token fails, `isValid` proceeds with
recovered timestamp 0 and never invokes the block cipher (the result is the
same for every cipher), so it returns true exactly when
`0 < now < maxTokenAge`; in particular at any `now ≥ maxTokenAge` such a
token is reported invalid. -/
theorem decode_failure_path (C D : BlockCipher) (cfg : EasyNoPassword)
    (tok : List Char) (u : String) (now : ℕ) (hu : u ≠ "")
    (hbad : b62StrVal tok 0 = none) :
    decryptToken C cfg tok u = 0 ∧
    decryptToken C cfg tok u = decryptToken D cfg tok u ∧
    isValid C cfg tok u now = Except.ok (windowCheck cfg.maxTokenAge now 0) ∧
    (isValid C cfg tok u now = Except.ok true ↔
      0 < (now : Int) ∧ (now : Int) < cfg.maxTokenAge) ∧
    (cfg.maxTokenAge ≤ (now : Int) →
      isValid C cfg tok u now = Except.ok false) := by
  have hdec : ∀ E : BlockCipher, decryptToken E cfg tok u = 0 := by
    intro E
    simp [decryptToken, b62decode, hbad]
  refine ⟨hdec C, by rw [hdec C, hdec D], ?_, ?_, ?_⟩
  · rw [isValid, if_neg hu, hdec C]
  · rw [isValid, if_neg hu, hdec C]
    constructor
    · intro h
      have h2 := (windowCheck_eq_true cfg.maxTokenAge now 0).mp (Except.ok.inj h)
      push_cast at h2
      omega
    · intro h
      have h2 : windowCheck cfg.maxTokenAge now 0 = true := by
        rw [windowCheck_eq_true]
        push_cast
        omega
      rw [h2]
  · intro hage
    rw [isValid, if_neg hu, hdec C]
    have hf : windowCheck cfg.maxTokenAge now 0 = false := by
      rw [windowCheck_eq_false]
      intro hcon
      push_cast at hcon
      omega
    rw [hf]

/-- Witness for C9 on a token with characters outside the alphabet,
verified at a time far past the window. -/
theorem decode_failure_path_w :
    uAlice ≠ "" ∧ b62StrVal badToken 0 = none ∧
    (decryptToken idCipher cfgDemo badToken uAlice = 0 ∧
     decryptToken idCipher cfgDemo badToken uAlice =
       decryptToken idCipher cfgDemo badToken uAlice ∧
     isValid idCipher cfgDemo badToken uAlice 1000000 =
       Except.ok (windowCheck cfgDemo.maxTokenAge 1000000 0) ∧
     (isValid idCipher cfgDemo badToken uAlice 1000000 = Except.ok true ↔
       0 < (1000000 : Int) ∧ (1000000 : Int) < cfgDemo.maxTokenAge) ∧
     (cfgDemo.maxTokenAge ≤ (1000000 : Int) →
       isValid idCipher cfgDemo badToken uAlice 1000000 = Except.ok false)) :=
  ⟨by decide, by decide,
    decode_failure_path idCipher idCipher cfgDemo badToken uAlice 1000000
      (by decide) (by decide)⟩

/-- C10: a falsy `maxTokenAge` constructor argument (absent, null — both
`none` — or 0) yields a window of exactly 900000 ms, while any other value,
negative ones included, is used as-is. -/
theorem maxTokenAge_defaulting :
    resolveMaxTokenAge none = 900000 ∧
    resolveMaxTokenAge (some 0) = 900000 ∧
    (∀ v : Int, v ≠ 0 → resolveMaxTokenAge (some v) = v) ∧
    (∀ s : List ℕ, s ≠ [] → ∀ m : Option Int,
      mkEasyNoPassword s m = Except.ok ⟨s, resolveMaxTokenAge m⟩) := by
  refine ⟨rfl, rfl, ?_, ?_⟩
  · intro v hv
    simp [resolveMaxTokenAge, hv]
  · intro s hs m
    rw [mkEasyNoPassword, if_neg hs]

/-- Witness for C10 with a negative window and a present secret. -/
theorem maxTokenAge_defaulting_w :
    ((-5 : Int) ≠ 0 ∧ resolveMaxTokenAge (some (-5)) = -5) ∧
    (demoSecret ≠ [] ∧
      mkEasyNoPassword demoSecret none =
        Except.ok ⟨demoSecret, resolveMaxTokenAge none⟩) :=
  ⟨⟨by decide, maxTokenAge_defaulting.2.2.1 (-5) (by decide)⟩,
   ⟨by decide, maxTokenAge_defaulting.2.2.2 demoSecret (by decide) none⟩⟩

/-- C1: a token produced by `createToken` for `(username, secret, now)` is
accepted by `isValid` for the same username and secret at any verification
time `now + eps` with `0 < eps < maxTokenAge` (for a well-behaved cipher,
a non-empty username and a representable timestamp). -/
theorem createToken_isValid_roundtrip (C : BlockCipher) (cfg : EasyNoPassword)
    (u : String) (now eps : ℕ) (hC : goodCipher C) (hu : u ≠ "")
    (hnow : now < 2 ^ 64) (heps : 0 < eps)
    (hage : (eps : Int) < cfg.maxTokenAge) :
    ∃ tok, createToken C cfg u now = Except.ok tok ∧
      isValid C cfg tok u (now + eps) = Except.ok true := by
  obtain ⟨hlen, hbytes, hinv⟩ := hC (createKey cfg.secret u) (tsBuffer now)
    (tsBuffer_length now) (tsBuffer_bytes_lt now)
  refine ⟨b62encode (C.enc (createKey cfg.secret u) (tsBuffer now)),
    by rw [createToken, if_neg hu], ?_⟩
  rw [isValid, if_neg hu]
  have hv : bytesToNat (C.enc (createKey cfg.secret u) (tsBuffer now)) < 2 ^ 64 := by
    have hb := bytesToNat_lt _ hbytes
    rw [hlen] at hb
    have h8 : (256 : ℕ) ^ 8 = 2 ^ 64 := by norm_num
    omega
  have hdecode :
      b62decode (b62encode (C.enc (createKey cfg.secret u) (tsBuffer now))) =
        some (C.enc (createKey cfg.secret u) (tsBuffer now)) := by
    rw [b62encode, b62decode, b62StrVal_natToB62_zero]
    have hid := natToBytesBE_bytesToNat _ hbytes
    rw [hlen] at hid
    simp only [Option.map_some', Nat.mod_eq_of_lt hv, hid]
  have hts : decryptToken C cfg
      (b62encode (C.enc (createKey cfg.secret u) (tsBuffer now))) u = now := by
    simp only [decryptToken, hdecode]
    rw [hinv]
    exact (tsBuffer_words_and_reassembly now hnow).2.2.2
  rw [hts]
  have hw : windowCheck cfg.maxTokenAge (now + eps) now = true := by
    rw [windowCheck_eq_true]
    push_cast
    omega
  rw [hw]

/-- Witness for C1 at a concrete cipher instance, username, timestamp and
delay of one minute. -/
theorem createToken_isValid_roundtrip_w :
    goodCipher idCipher ∧ uFrani ≠ "" ∧ (1712345678901 : ℕ) < 2 ^ 64 ∧
      (0 : ℕ) < 60000 ∧ ((60000 : ℕ) : Int) < cfgDemo.maxTokenAge ∧
      ∃ tok, createToken idCipher cfgDemo uFrani 1712345678901 = Except.ok tok ∧
        isValid idCipher cfgDemo tok uFrani (1712345678901 + 60000) =
          Except.ok true :=
  ⟨fun _ _ h1 h2 => ⟨h1, h2, rfl⟩, by decide, by norm_num, by norm_num, by decide,
    createToken_isValid_roundtrip idCipher cfgDemo uFrani 1712345678901 60000
      (fun _ _ h1 h2 => ⟨h1, h2, rfl⟩) (by decide) (by norm_num) (by norm_num)
      (by decide)⟩

theorem getD_eq_getElem_of_lt (l : List ℕ) (n d : ℕ) (h : n < l.length) :
    l.getD n d = l[n] := by
  rw [List.getD_eq_getElem?_getD, List.getElem?_eq_getElem h]
  rfl

theorem getD_mem (l : List ℕ) (n d : ℕ) (h : n < l.length) : l.getD n d ∈ l := by
  rw [getD_eq_getElem_of_lt l n d h]
  exact List.getElem_mem h

theorem sha512_length (m : List ℕ) : (sha512 m).length = 64 := by
  simp [sha512, List.length_append, natToBytesBE_length]

theorem sha512_lt (m : List ℕ) : ∀ x ∈ sha512 m, x < 256 := by
  intro x hx
  simp only [sha512, List.mem_append] at hx
  rcases hx with ((((((h1 | h1) | h1) | h1) | h1) | h1) | h1) | h1 <;>
    exact natToBytesBE_lt _ _ x h1

theorem hmacSha512_length (k m : List ℕ) : (hmacSha512 k m).length = 64 := by
  simp only [hmacSha512]
  exact sha512_length _

theorem hmacSha512_lt (k m : List ℕ) : ∀ x ∈ hmacSha512 k m, x < 256 := by
  simp only [hmacSha512]
  exact sha512_lt _

theorem zipWith_xor_lt (a b : List ℕ) (ha : ∀ x ∈ a, x < 256)
    (hb : ∀ x ∈ b, x < 256) : ∀ x ∈ List.zipWith Nat.xor a b, x < 256 := by
  induction a generalizing b with
  | nil => simp
  | cons y ys ih =>
    cases b with
    | nil => simp
    | cons z zs =>
      intro x hx
      simp only [List.zipWith_cons_cons, List.mem_cons] at hx
      rcases hx with hx | hx
      · subst hx
        have h1 : y < 2 ^ 8 := by
          have := ha y (by simp)
          omega
        have h2 : z < 2 ^ 8 := by
          have := hb z (by simp)
          omega
        have h3 : Nat.xor y z < 2 ^ 8 := Nat.xor_lt_two_pow h1 h2
        omega
      · exact ih zs (fun w hw => ha w (by simp [hw]))
          (fun w hw => hb w (by simp [hw])) x hx

theorem pbkdf2Fold_spec (p : List ℕ) (L : List ℕ) :
    ∀ TU : List ℕ × List ℕ, TU.1.length = 64 → (∀ x ∈ TU.1, x < 256) →
      ((L.foldl (fun TU _ =>
          let U := hmacSha512 p TU.2
          (List.zipWith Nat.xor TU.1 U, U)) TU).1.length = 64 ∧
        ∀ x ∈ (L.foldl (fun TU _ =>
          let U := hmacSha512 p TU.2
          (List.zipWith Nat.xor TU.1 U, U)) TU).1, x < 256) := by
  induction L with
  | nil =>
    intro TU h1 h2
    exact ⟨h1, h2⟩
  | cons hd tl ih =>
    intro TU h1 h2
    rw [List.foldl_cons]
    apply ih
    · show (List.zipWith Nat.xor TU.1 (hmacSha512 p TU.2)).length = 64
      rw [List.length_zipWith, h1, hmacSha512_length]
      norm_num
    · show ∀ x ∈ List.zipWith Nat.xor TU.1 (hmacSha512 p TU.2), x < 256
      exact zipWith_xor_lt _ _ h2 (hmacSha512_lt _ _)

theorem pbkdf2Block_spec (p s : List ℕ) (c i : ℕ) :
    (pbkdf2Block p s c i).length = 64 ∧ ∀ x ∈ pbkdf2Block p s c i, x < 256 := by
  simp only [pbkdf2Block]
  exact pbkdf2Fold_spec p (List.range (c - 1)) _
    (hmacSha512_length _ _) (hmacSha512_lt _ _)

theorem createKey_dims (s : List ℕ) (u : String) :
    (createKey s u).length = 16 ∧ ∀ x ∈ createKey s u, x < 256 := by
  have hblock := pbkdf2Block_spec (utf8Bytes u) s 1000 1
  simp only [createKey, pbkdf2HmacSha512]
  have h1 : (16 + 63) / 64 = 1 := by norm_num
  have hr : List.range 1 = [0] := rfl
  rw [h1, hr]
  simp only [List.map_cons, List.map_nil, List.join_cons, List.join_nil,
    List.append_nil]
  constructor
  · rw [List.length_take, hblock.1]
    norm_num
  · intro x hx
    exact hblock.2 x (List.take_subset _ _ hx)

/-- C5: the derived key is the 16-byte PBKDF2 value with 1000 iterations
and SHA-512 as the pseudorandom function, the username as the password
material and the secret as the salt, and identical (secret, username)
pairs always yield the identical key. -/
theorem createKey_pbkdf2_spec (s : List ℕ) (u : String) :
    createKey s u = pbkdf2HmacSha512 (utf8Bytes u) s 1000 16 ∧
    (createKey s u).length = 16 ∧
    (∀ s2 u2, s = s2 → u = u2 → createKey s u = createKey s2 u2) := by
  refine ⟨rfl, (createKey_dims s u).1, ?_⟩
  intro s2 u2 h1 h2
  rw [h1, h2]

/-- Witness for C5 at a concrete secret and username. -/
theorem createKey_pbkdf2_spec_w :
    createKey demoSecret uAlice = pbkdf2HmacSha512 (utf8Bytes uAlice) demoSecret 1000 16 ∧
    (createKey demoSecret uAlice).length = 16 ∧
    createKey demoSecret uAlice = createKey demoSecret uAlice :=
  ⟨(createKey_pbkdf2_spec demoSecret uAlice).1,
   (createKey_pbkdf2_spec demoSecret uAlice).2.1,
   (createKey_pbkdf2_spec demoSecret uAlice).2.2 demoSecret uAlice rfl rfl⟩

theorem createKey_collision_aux (s : List ℕ) :
    ∃ u1 u2 : String, u1 ≠ u2 ∧ createKey s u1 = createKey s u2 := by
  have hbound : ∀ (k : ℕ) (i : Fin 16),
      (createKey s (String.mk (List.replicate k 'a'))).getD i 0 < 256 := by
    intro k i
    have hd := createKey_dims s (String.mk (List.replicate k 'a'))
    have hi : (i : ℕ) < (createKey s (String.mk (List.replicate k 'a'))).length := by
      rw [hd.1]
      exact i.isLt
    exact hd.2 _ (getD_mem _ _ _ hi)
  obtain ⟨m, n, hmn, heq⟩ := Finite.exists_ne_map_eq_of_infinite
    (fun (k : ℕ) => fun (i : Fin 16) =>
      (⟨(createKey s (String.mk (List.replicate k 'a'))).getD i 0,
        hbound k i⟩ : Fin 256))
  refine ⟨String.mk (List.replicate m 'a'), String.mk (List.replicate n 'a'), ?_, ?_⟩
  · intro hcon
    apply hmn
    have hdata : List.replicate m 'a' = List.replicate n 'a' :=
      congrArg String.data hcon
    have hlen := congrArg List.length hdata
    simp only [List.length_replicate] at hlen
    exact hlen
  · apply List.ext_getElem
    · rw [(createKey_dims _ _).1, (createKey_dims _ _).1]
    · intro i h1 h2
      have hi16 : i < 16 := by
        rw [(createKey_dims _ _).1] at h1
        exact h1
      have hfun := congrFun heq ⟨i, hi16⟩
      have hval := congrArg Fin.val hfun
      simp only [] at hval
      rw [← getD_eq_getElem_of_lt _ i 0 h1, ← getD_eq_getElem_of_lt _ i 0 h2]
      exact hval

/-- C6 (counterexample): key derivation is not injective in the user
identifier under a fixed secret — the derived keys live in a space of
`256^16` values while identifiers are unbounded, so two distinct
identifiers must share a key. -/
theorem createKey_injective_cx :
    ¬ ∀ u1 u2 : String, u1 ≠ u2 →
        createKey demoSecret u1 ≠ createKey demoSecret u2 := by
  intro h
  obtain ⟨u1, u2, hne, heq⟩ := createKey_collision_aux demoSecret
  exact h u1 u2 hne heq

/-- C6 (amended): under any fixed secret, key derivation cannot be
injective in the user identifier: there exist two distinct user identifiers
whose derived 16-byte keys coincide (distinctness of keys can hold only
with overwhelming probability, not always). -/
theorem createKey_collision_exists (s : List ℕ) :
    ∃ u1 u2 : String, u1 ≠ u2 ∧ createKey s u1 = createKey s u2 :=
  createKey_collision_aux s
